import Mathlib

/-!
Verification of the `vector-lib` package (src/index.ts), a small
N-dimensional vector library with GLSL-style swizzle access.

Modelling conventions:
* JavaScript numbers are modelled as rationals (`ℚ`); the claims under
  study are about exact arithmetic formulas and control flow, none about
  IEEE-754 rounding, infinities or NaN.
* A JavaScript value that may be `undefined` is modelled as an `Option`.
  `Array.prototype.findIndex` returning `-1`, followed by `body[-1]`,
  yields `undefined`; this is modelled by `Option Nat` / `none`.
* `structuredClone` of plain data is the identity on values, so `clone`
  is modelled as the identity copy of the structure.
* The runtime class `VecBase` has fields `swizzles` (component names,
  single-character strings, modelled as `Char`) and `body` (the numeric
  components).
-/

/-- The runtime state of a `VecBase` instance: `swizzles` holds the
component names (single-character strings in JS, `Char` here) and `body`
holds the numeric components. -/
structure VecBase where
  swizzles : List Char
  body : List ℚ
deriving DecidableEq, Repr

/-- `findIndex(v => swizzle === v)` over a name list: the first index whose
entry equals `c`, or `-1` in JS — modelled as `Option Nat` (`none` = `-1`). -/
def findSwizzleIdx : List Char → Char → Option Nat
  | [], _ => none
  | s :: rest, c => if s = c then some 0 else (findSwizzleIdx rest c).map (· + 1)

/-- `VecBase.find_swizzle_index` from the source. -/
def VecBase.find_swizzle_index (v : VecBase) (c : Char) : Option Nat :=
  findSwizzleIdx v.swizzles c

/-- `VecBase.get_dimension`: `this.body[this.find_swizzle_index(dimension)]`.
When the index is `-1` (name absent) or past the end of `body`, the JS read
yields `undefined`, modelled as `none`. -/
def VecBase.get_dimension (v : VecBase) (c : Char) : Option ℚ :=
  match v.find_swizzle_index c with
  | some i => v.body[i]?
  | none => none

/-- `VecBase.set_dimension`: `this.body[this.find_swizzle_index(dimension)] = value`.
When the name is absent the JS write lands on the non-index key `-1` of the
array, leaving the component sequence (indices `0..length-1`) unchanged, so
it is modelled as the identity.  (For an in-range index `List.set` matches
the JS in-place write; an out-of-range nonnegative index would extend a JS
array, a situation no claim below exercises.) -/
def VecBase.set_dimension (v : VecBase) (c : Char) (q : ℚ) : VecBase :=
  match v.find_swizzle_index c with
  | some i => ⟨v.swizzles, v.body.set i q⟩
  | none => v

/-- `VecBase.clone`: a structured clone of both fields — the identity on the
modelled value. -/
def VecBase.clone (v : VecBase) : VecBase :=
  ⟨v.swizzles, v.body⟩

/-- `VecBase.couple_element_wise`: clones `this` and maps
`(v, i) => callback(v, other.body[i])` over the clone's body.  When `other`
is shorter, the JS callback receives `undefined` and produces `NaN`, which
has no counterpart in `ℚ`; that branch is modelled with a default of `0`.
No claim below involves vectors of different lengths in an element-wise
operation. -/
def VecBase.couple_element_wise (v other : VecBase) (f : ℚ → ℚ → ℚ) : VecBase :=
  ⟨v.swizzles,
    (List.range v.body.length).map fun i =>
      f (v.body[i]?.getD 0) (other.body[i]?.getD 0)⟩

/-- `VecBase.add`. -/
def VecBase.add (v other : VecBase) : VecBase :=
  v.couple_element_wise other fun a b => a + b

/-- `VecBase.subtract`. -/
def VecBase.subtract (v other : VecBase) : VecBase :=
  v.couple_element_wise other fun a b => a - b

/-- `VecBase.divide` (JS `/`; on `ℚ` division by zero gives `0` instead of
`±Infinity`/`NaN`, a branch no claim below exercises). -/
def VecBase.divide (v other : VecBase) : VecBase :=
  v.couple_element_wise other fun a b => a / b

/-- `VecBase.multiply`. -/
def VecBase.multiply (v other : VecBase) : VecBase :=
  v.couple_element_wise other fun a b => a * b

/-- `VecBase.scalar`: clones `this`, overwrites every component of the clone
with `number`, and multiplies. -/
def VecBase.scalar (v : VecBase) (number : ℚ) : VecBase :=
  v.multiply ⟨v.swizzles, v.body.map fun _ => number⟩

/-- `VecBase.lerp`: element-wise
`(a, b) => { if (t > 1) return b; if (t < 0) return a; return a + (a + b) / 2; }`. -/
def VecBase.lerp (v other : VecBase) (t : ℚ) : VecBase :=
  v.couple_element_wise other fun a b =>
    if t > 1 then b else if t < 0 then a else a + (a + b) / 2

/-- One iteration of the index-juggling loop inside `VecBase.cross`
(source lines 491–499), acting on the accumulator `result`:

    const [i2, i3] = [1 - i, 4 - i];
    const [c1, c2] = [i, i3];
    const j = i2 < 0 ? i3 : i2;
    result[i] += values[0][c1 + 1] * values[1][c1 + 2];
    result[j] -= values[0][c2 - 1] * values[1][c2 - 2];

`va`/`vb` are `values[0]`/`values[1]`; all indices reached for `i < 3` are
in range of the six-element doubled bodies. -/
def crossStep (va vb : List ℚ) (result : List ℚ) (i : Nat) : List ℚ :=
  let i2 : Int := 1 - (i : Int)
  let i3 : Int := 4 - (i : Int)
  let c1 : Nat := i
  let c2 : Int := i3
  let j : Int := if i2 < 0 then i3 else i2
  let r1 := result.set i
    ((result[i]?.getD 0) + (va[c1 + 1]?.getD 0) * (vb[c1 + 2]?.getD 0))
  r1.set j.toNat
    ((r1[j.toNat]?.getD 0) - (va[(c2 - 1).toNat]?.getD 0) * (vb[(c2 - 2).toNat]?.getD 0))

/-- `VecBase.cross`: returns `undefined` (`none`) unless `this` has exactly
three components; otherwise doubles both bodies, runs the loop for
`i = 0, 1, 2` starting from `result = [0, 0, 0]`, and returns a clone of
`this` whose body is the accumulated result. -/
def VecBase.cross (v other : VecBase) : Option VecBase :=
  if v.body.length = 3 then
    let va := v.body ++ v.body
    let vb := other.body ++ other.body
    let result := [0, 1, 2].foldl (crossStep va vb) [0, 0, 0]
    some ⟨v.swizzles, result⟩
  else
    none

/-- The component names of `Vec2` (`Vec2.swizzle_particals`). -/
def vec2Names : List Char := ['x', 'y']

/-- The component names of `Vec3` (`Vec3.swizzle_particals`). -/
def vec3Names : List Char := ['x', 'y', 'z']

/-- The component names of `Vec4` (`Vec4.swizzle_particals`). -/
def vec4Names : List Char := ['x', 'y', 'z', 'w']

/-- `new Vec2(...body)`: stores the rest-argument list verbatim as the body,
with names `x, y`.  There is no runtime length check and no broadcast. -/
def Vec2.new (body : List ℚ) : VecBase :=
  ⟨vec2Names, body⟩

/-- `new Vec3(...body)`: stores the rest-argument list verbatim as the body,
with names `x, y, z`.  There is no runtime length check and no broadcast. -/
def Vec3.new (body : List ℚ) : VecBase :=
  ⟨vec3Names, body⟩

/-- `new Vec4(...body)`: stores the rest-argument list verbatim as the body,
with names `x, y, z, w`.  There is no runtime length check and no broadcast. -/
def Vec4.new (body : List ℚ) : VecBase :=
  ⟨vec4Names, body⟩

/-- Claim C1: for every pair of 3-component vectors the index-juggling loop
of `cross` produces exactly the standard 3D cross product
`(a.y*b.z - a.z*b.y, a.z*b.x - a.x*b.z, a.x*b.y - a.y*b.x)` (as a new
vector with `a`'s names), and for every receiver whose component count is
not 3, `cross` returns `undefined` (an absent result). -/
theorem cross_matches_standard_formula :
    (∀ (a b : VecBase) (a0 a1 a2 b0 b1 b2 : ℚ),
        a.body = [a0, a1, a2] → b.body = [b0, b1, b2] →
        a.cross b = some ⟨a.swizzles,
          [a1 * b2 - a2 * b1, a2 * b0 - a0 * b2, a0 * b1 - a1 * b0]⟩)
    ∧ (∀ a b : VecBase, a.body.length ≠ 3 → a.cross b = none) := by
  constructor
  · intro a b a0 a1 a2 b0 b1 b2 ha hb
    simp only [VecBase.cross, ha, hb]
    norm_num [crossStep, List.foldl]
    simp only [show (2 : Int).toNat = 2 from rfl, show (3 : Int).toNat = 3 from rfl]
    norm_num
    ring
  · intro a b h
    simp only [VecBase.cross, if_neg h]

/-- Witness for C1 at the spec's concrete scenario:
`Vec3(1,2,3).cross(Vec3(4,5,6))` equals `(-3, 6, -3)`. -/
theorem cross_matches_standard_formula_witness :
    (Vec3.new [1, 2, 3]).cross (Vec3.new [4, 5, 6])
      = some ⟨vec3Names, [-3, 6, -3]⟩ := by
  have h := cross_matches_standard_formula.1
    (Vec3.new [1, 2, 3]) (Vec3.new [4, 5, 6]) 1 2 3 4 5 6 rfl rfl
  rw [h]
  norm_num [Vec3.new]

/-- The property keys that `Reflect.has` finds on a `VecBase` instance
before the proxy handlers fall through to swizzle resolution: the two own
fields, the methods of the `VecBase` prototype (TypeScript `private` is
erased at runtime), `constructor`, and the members inherited from
`Object.prototype`. -/
def declaredMembers : List String :=
  ["swizzles", "body", "constructor", "clone", "find_swizzle_index",
   "get_swizzles", "get_dimension", "set_dimension", "couple_element_wise",
   "add", "subtract", "divide", "multiply", "scalar", "lerp", "angle",
   "norm", "magnitude", "projection", "normalize", "dot", "cross",
   "toString", "toLocaleString", "valueOf", "hasOwnProperty",
   "isPrototypeOf", "propertyIsEnumerable", "__proto__",
   "__defineGetter__", "__defineSetter__", "__lookupGetter__",
   "__lookupSetter__"]

/-- `swizzleMatch` from `createVecProxy` (source lines 532–534):

    (val) => swizzles.length >= val.length
        ? val.every(c => swizzles.includes(c))
        : false

`val` is the list of characters of the candidate pattern. -/
def swizzleMatch (swizzles : List Char) (val : List Char) : Bool :=
  if swizzles.length ≥ val.length
    then val.all fun c => swizzles.contains c
    else false

/-- The name list given to the vector built by a swizzle read of length
`k`: the `switch` in the proxy `get` handler uses `Vec2.new` / `Vec3.new` /
`Vec4.new` (names `xy` / `xyz` / `xyzw`) for `k = 2, 3, 4` and otherwise
falls through to `new VecBase(swizzles, result)` with the proxy's own name
list. -/
def resultNames (swizzles : List Char) (k : Nat) : List Char :=
  match k with
  | 2 => vec2Names
  | 3 => vec3Names
  | 4 => vec4Names
  | _ => swizzles

/-- The possible results of a property read through the proxy:
a declared member forwarded from the target, JS `undefined`, a single
number, or a freshly built vector (itself wrapped in a proxy by the
source). -/
inductive GetResult
  | forwarded
  | absent
  | num (q : ℚ)
  | vec (v : VecBase)
deriving DecidableEq, Repr

/-- The proxy `get` handler of `createVecProxy` (source lines 551–577):
declared members are forwarded; otherwise the key's characters are matched
as a swizzle pattern (`undefined` on failure), the referenced dimensions
are gathered with `get_dimension`, a length-1 result returns its single
entry (which is `undefined` when the dimension read was), and longer (or
empty) results are packed into a new vector via `resultNames`.  A gathered
entry that is `undefined` (possible only for a vector whose body is
shorter than its name list) is placed into the new body as `0` here, `ℚ`
having no `undefined`; no claim below reaches that case. -/
def proxyGet (v : VecBase) (swizzles : List Char) (p : String) : GetResult :=
  if declaredMembers.contains p then .forwarded
  else
    let chars := p.data
    if swizzleMatch swizzles chars then
      let result := chars.map fun c => v.get_dimension c
      if result.length = 1 then
        match result.head? with
        | some (some q) => .num q
        | _ => .absent
      else
        .vec ⟨resultNames swizzles result.length, result.map fun o => o.getD 0⟩
    else .absent

/-- A JavaScript value assigned through the proxy: an instance of the
library's `VecBase` class, a plain (non-`VecBase`) object carrying numeric
fields, or any other value.  Only the first passes the handler's
`value instanceof VecBase` test. -/
inductive JsValue
  | vecb (v : VecBase)
  | plain (fields : List (Char × ℚ))
  | other
deriving DecidableEq, Repr

/-- The possible results of a property write through the proxy: a declared
member forwarded via `Reflect.set`, or a handled write returning its status
together with the (possibly mutated) target. -/
inductive SetResult
  | forwarded
  | done (ok : Bool) (vec : VecBase)
deriving DecidableEq, Repr

/-- The loop of the proxy `set` handler (source lines 607–613): for each
pattern character, read that dimension off the assigned vector; stop with
`false` as soon as one is not a number (`get_dimension` returned
`undefined`), otherwise write it into the target and continue; return
`true` with the final target after the last character. -/
def scatterLoop (target source : VecBase) : List Char → Bool × VecBase
  | [] => (true, target)
  | c :: rest =>
    match source.get_dimension c with
    | some q => scatterLoop (target.set_dimension c q) source rest
    | none => (false, target)

/-- The proxy `set` handler of `createVecProxy` (source lines 596–616):
declared members are forwarded; otherwise the write fails unless the value
is a `VecBase` instance and the key's characters match as a swizzle
pattern, in which case the scatter loop runs. -/
def proxySet (target : VecBase) (swizzles : List Char) (p : String)
    (value : JsValue) : SetResult :=
  if declaredMembers.contains p then .forwarded
  else
    match value with
    | .vecb w =>
      let chars := p.data
      if swizzleMatch swizzles chars then
        let r := scatterLoop target w chars
        .done r.1 r.2
      else .done false target
    | _ => .done false target

/-- `findSwizzleIdx` fails exactly on names absent from the list. -/
lemma findSwizzleIdx_eq_none_iff {sw : List Char} {c : Char} :
    findSwizzleIdx sw c = none ↔ c ∉ sw := by
  induction sw with
  | nil => simp [findSwizzleIdx]
  | cons s rest ih =>
    by_cases h : s = c
    · simp [findSwizzleIdx, h]
    · simp [findSwizzleIdx, h, ih, Ne.symm h]

/-- A found index points at an occurrence of the name. -/
lemma findSwizzleIdx_getElem {sw : List Char} {c : Char} {i : Nat}
    (h : findSwizzleIdx sw c = some i) : sw[i]? = some c := by
  induction sw generalizing i with
  | nil => simp [findSwizzleIdx] at h
  | cons s rest ih =>
    by_cases hs : s = c
    · simp [findSwizzleIdx, hs] at h
      simp [← h, hs]
    · simp [findSwizzleIdx, hs] at h
      obtain ⟨j, hj, rfl⟩ := h
      simpa using ih hj

/-- A found index is in range of the name list. -/
lemma findSwizzleIdx_lt_length {sw : List Char} {c : Char} {i : Nat}
    (h : findSwizzleIdx sw c = some i) : i < sw.length := by
  have := findSwizzleIdx_getElem h
  exact (List.getElem?_eq_some.mp this).1

/-- A present name is found. -/
lemma findSwizzleIdx_isSome {sw : List Char} {c : Char} (h : c ∈ sw) :
    ∃ i, findSwizzleIdx sw c = some i := by
  rcases he : findSwizzleIdx sw c with _ | i
  · exact absurd (findSwizzleIdx_eq_none_iff.mp he) (by simpa using h)
  · exact ⟨i, rfl⟩

/-- Two distinct names are never found at the same index. -/
lemma findSwizzleIdx_inj {sw : List Char} {c d : Char} {i : Nat}
    (hc : findSwizzleIdx sw c = some i) (hd : findSwizzleIdx sw d = some i) :
    c = d := by
  have h1 := findSwizzleIdx_getElem hc
  have h2 := findSwizzleIdx_getElem hd
  rw [h1] at h2
  exact (Option.some.injEq _ _ ▸ h2)

/-- `set_dimension` never changes the name list. -/
lemma set_dimension_swizzles (v : VecBase) (c : Char) (q : ℚ) :
    (v.set_dimension c q).swizzles = v.swizzles := by
  unfold VecBase.set_dimension
  rcases v.find_swizzle_index c with _ | i <;> rfl

/-- `set_dimension` never changes the number of components. -/
lemma set_dimension_length (v : VecBase) (c : Char) (q : ℚ) :
    (v.set_dimension c q).body.length = v.body.length := by
  unfold VecBase.set_dimension
  rcases v.find_swizzle_index c with _ | i
  · rfl
  · simp

/-- Reading back the dimension just written (for a present name of a vector
whose body covers its names) gives the written value. -/
lemma get_dimension_set_same {v : VecBase} {c : Char} (q : ℚ)
    (hc : c ∈ v.swizzles) (hlen : v.body.length = v.swizzles.length) :
    (v.set_dimension c q).get_dimension c = some q := by
  obtain ⟨i, hi⟩ := findSwizzleIdx_isSome hc
  have hij : i < v.body.length := hlen ▸ findSwizzleIdx_lt_length hi
  unfold VecBase.get_dimension VecBase.set_dimension
  unfold VecBase.find_swizzle_index
  simp only [hi]
  exact List.getElem?_set_eq_of_lt q hij

/-- Writing one dimension does not change the reading of another name. -/
lemma get_dimension_set_ne {v : VecBase} {c d : Char} (q : ℚ) (hne : d ≠ c) :
    (v.set_dimension c q).get_dimension d = v.get_dimension d := by
  unfold VecBase.get_dimension VecBase.set_dimension VecBase.find_swizzle_index
  rcases hc : findSwizzleIdx v.swizzles c with _ | i
  · rfl
  · simp only
    rcases hd : findSwizzleIdx v.swizzles d with _ | k
    · rfl
    · have hik : i ≠ k := by
        intro h
        subst h
        exact hne (findSwizzleIdx_inj hd hc)
      exact List.getElem?_set_ne hik

/-- A present name of a vector whose body covers its names reads to a
number. -/
lemma get_dimension_isSome {v : VecBase} {c : Char}
    (hc : c ∈ v.swizzles) (hlen : v.body.length = v.swizzles.length) :
    ∃ q, v.get_dimension c = some q := by
  obtain ⟨i, hi⟩ := findSwizzleIdx_isSome hc
  have hil : i < v.body.length := hlen ▸ findSwizzleIdx_lt_length hi
  unfold VecBase.get_dimension VecBase.find_swizzle_index
  simp only [hi]
  exact ⟨v.body[i], List.getElem?_eq_some.mpr ⟨hil, rfl⟩⟩

/-- An absent name reads to `undefined`. -/
lemma get_dimension_eq_none {v : VecBase} {c : Char} (hc : c ∉ v.swizzles) :
    v.get_dimension c = none := by
  unfold VecBase.get_dimension VecBase.find_swizzle_index
  simp only [findSwizzleIdx_eq_none_iff.mpr hc]

/-- Writing to an absent name is the identity on the modelled vector. -/
lemma set_dimension_eq_self {v : VecBase} {c : Char} (q : ℚ)
    (hc : c ∉ v.swizzles) : v.set_dimension c q = v := by
  unfold VecBase.set_dimension VecBase.find_swizzle_index
  simp only [findSwizzleIdx_eq_none_iff.mpr hc]

/-- `swizzleMatch` succeeds exactly on patterns no longer than the name
list all of whose characters are names (the empty pattern included). -/
lemma swizzleMatch_iff {sw val : List Char} :
    swizzleMatch sw val = true ↔ val.length ≤ sw.length ∧ ∀ c ∈ val, c ∈ sw := by
  unfold swizzleMatch
  by_cases h : sw.length ≥ val.length
  · simp only [if_pos h, List.all_eq_true, ge_iff_le] at *
    constructor
    · intro ha
      exact ⟨h, fun c hc => by simpa using ha c hc⟩
    · intro ⟨_, ha⟩ c hc
      simpa using ha c hc
  · simp only [if_neg h]
    constructor
    · intro hf
      exact absurd hf (by simp)
    · intro ⟨hl, _⟩
      exact absurd hl (by omega)

/-- The state reached by the successful iterations of the proxy `set`
loop: each character's dimension on the target is overwritten with the
dimension of the same name read off the source. -/
def applyWrites (source : VecBase) (target : VecBase) : List Char → VecBase
  | [] => target
  | c :: rest =>
      applyWrites source (target.set_dimension c ((source.get_dimension c).getD 0)) rest

/-- `applyWrites` never changes the name list. -/
lemma applyWrites_swizzles (source : VecBase) :
    ∀ (chars : List Char) (target : VecBase),
      (applyWrites source target chars).swizzles = target.swizzles := by
  intro chars
  induction chars with
  | nil => intro target; rfl
  | cons c rest ih =>
    intro target
    rw [applyWrites, ih, set_dimension_swizzles]

/-- `applyWrites` never changes the number of components. -/
lemma applyWrites_length (source : VecBase) :
    ∀ (chars : List Char) (target : VecBase),
      (applyWrites source target chars).body.length = target.body.length := by
  intro chars
  induction chars with
  | nil => intro target; rfl
  | cons c rest ih =>
    intro target
    rw [applyWrites, ih, set_dimension_length]

/-- Names not among the written characters read the same after
`applyWrites`. -/
lemma applyWrites_get_not_mem (source : VecBase) :
    ∀ (chars : List Char) (target : VecBase) (d : Char), d ∉ chars →
      (applyWrites source target chars).get_dimension d = target.get_dimension d := by
  intro chars
  induction chars with
  | nil => intro target d _; rfl
  | cons c rest ih =>
    intro target d hd
    rw [applyWrites, ih _ _ (fun h => hd (List.mem_cons_of_mem c h)),
      get_dimension_set_ne _
        (fun h => hd (by rw [h]; exact List.mem_cons_self c rest))]

/-- A written character whose name the target carries (with a body that
covers the names) reads back as the source's dimension of that name,
provided the source's dimension is a number. -/
lemma applyWrites_get_mem (source : VecBase) :
    ∀ (chars : List Char) (target : VecBase) (d : Char),
      target.body.length = target.swizzles.length →
      (∀ c ∈ chars, c ∈ target.swizzles) →
      d ∈ chars → (source.get_dimension d).isSome →
      (applyWrites source target chars).get_dimension d = source.get_dimension d := by
  intro chars
  induction chars with
  | nil => intro _ _ _ _ hd _; exact absurd hd (List.not_mem_nil _)
  | cons c rest ih =>
    intro target d hlen hmem hd hsome
    rw [applyWrites]
    set t1 := target.set_dimension c ((source.get_dimension c).getD 0) with ht1
    have h1len : t1.body.length = t1.swizzles.length := by
      rw [ht1, set_dimension_swizzles, set_dimension_length]; exact hlen
    have h1mem : ∀ e ∈ rest, e ∈ t1.swizzles := by
      intro e he
      rw [ht1, set_dimension_swizzles]
      exact hmem e (List.mem_cons_of_mem c he)
    by_cases hdr : d ∈ rest
    · exact ih t1 d h1len h1mem hdr hsome
    · have hdc : d = c := by
        rcases List.mem_cons.mp hd with h | h
        · exact h
        · exact absurd h hdr
      subst hdc
      rw [applyWrites_get_not_mem source rest t1 d hdr, ht1]
      obtain ⟨q, hq⟩ := Option.isSome_iff_exists.mp hsome
      rw [hq]
      simp only [Option.getD_some]
      exact get_dimension_set_same q (hmem d (List.mem_cons_self d rest)) hlen

/-- When every character reads a number off the source, the scatter loop
succeeds and performs exactly the writes of `applyWrites`. -/
lemma scatterLoop_all_some (source : VecBase) :
    ∀ (chars : List Char) (target : VecBase),
      (∀ c ∈ chars, (source.get_dimension c).isSome) →
      scatterLoop target source chars = (true, applyWrites source target chars) := by
  intro chars
  induction chars with
  | nil => intro target _; rfl
  | cons c rest ih =>
    intro target hall
    have hc := hall c (List.mem_cons_self c rest)
    obtain ⟨q, hq⟩ := Option.isSome_iff_exists.mp hc
    rw [scatterLoop, hq, applyWrites, hq]
    simp only [Option.getD_some]
    exact ih _ (fun e he => hall e (List.mem_cons_of_mem c he))

/-- When every character of `front` reads a number off the source but `c`
reads `undefined`, the scatter loop stops at `c` with `false`, having
performed exactly the writes of `front`. -/
lemma scatterLoop_stops (source : VecBase) {c : Char} (back : List Char)
    (hfail : source.get_dimension c = none) :
    ∀ (front : List Char) (target : VecBase),
      (∀ d ∈ front, (source.get_dimension d).isSome) →
      scatterLoop target source (front ++ c :: back)
        = (false, applyWrites source target front) := by
  intro front
  induction front with
  | nil => intro target _; rw [List.nil_append, scatterLoop, hfail]; rfl
  | cons e rest ih =>
    intro target hall
    have he := hall e (List.mem_cons_self e rest)
    obtain ⟨q, hq⟩ := Option.isSome_iff_exists.mp he
    rw [List.cons_append, scatterLoop, hq, applyWrites, hq]
    simp only [Option.getD_some]
    exact ih _ (fun d hd => hall d (List.mem_cons_of_mem e hd))

/-- Claim C2 (code bug): constructing `Vec3` from the single value `5`
— the broadcast form the constructor's type `VecBody<3> = [number] |
NumberTuple<3>` explicitly admits — does not broadcast: the stored body is
the one-element list `[5]`, so `x` reads `5` but `y` and `z` read
`undefined`, and no `ArityMismatch` (or any other) failure is raised at
any body length. -/
theorem vec3_single_value_not_broadcast :
    (Vec3.new [5]).body = [5]
    ∧ (Vec3.new [5]).swizzles.length = 3
    ∧ (Vec3.new [5]).get_dimension 'x' = some 5
    ∧ (Vec3.new [5]).get_dimension 'y' = none
    ∧ (Vec3.new [5]).get_dimension 'z' = none := by
  decide

/-- Counterexample to claim C3 as stated: the empty string is not a
declared member and has length `0 < 1`, so the claim calls it invalid and
requires the read to be absent; but `swizzleMatch` accepts it
(`[].every` is vacuously `true`) and the proxy read of `""` returns a
freshly built empty vector, not `undefined`. -/
theorem empty_pattern_counterexample :
    swizzleMatch vec3Names [] = true
    ∧ declaredMembers.contains "" = false
    ∧ proxyGet (Vec3.new [1, 2, 3]) vec3Names ""
        = .vec ⟨vec3Names, []⟩ := by
  decide

/-- Claim C3 as amended: a pattern is valid iff its length is at most the
number of valid names (no lower bound: the empty pattern is valid) and
every character occurs in the name set; every undeclared key that is
invalid under this definition reads as `undefined`; and the empty string
reads as a view-wrapped empty generic vector rather than `undefined`. -/
theorem swizzle_pattern_validity :
    (∀ sw val : List Char,
        swizzleMatch sw val = true ↔ val.length ≤ sw.length ∧ ∀ c ∈ val, c ∈ sw)
    ∧ (∀ (v : VecBase) (sw : List Char) (p : String),
        declaredMembers.contains p = false → swizzleMatch sw p.data = false →
        proxyGet v sw p = .absent)
    ∧ (∀ (v : VecBase) (sw : List Char), proxyGet v sw "" = .vec ⟨sw, []⟩) := by
  refine ⟨fun sw val => swizzleMatch_iff, ?_, ?_⟩
  · intro v sw p hdecl hmatch
    simp only [proxyGet, hdecl, Bool.false_eq_true, if_false, hmatch]
  · intro v sw
    have hempty : declaredMembers.contains "" = false := by decide
    simp only [proxyGet, hempty, Bool.false_eq_true, if_false]
    simp [swizzleMatch, resultNames]

/-- Witness for C3: the key `"ab"` (an undeclared key with a character
outside `{x, y, z}`) reads as `undefined` on a `Vec3`. -/
theorem swizzle_pattern_validity_witness :
    proxyGet (Vec3.new [1, 2, 3]) vec3Names "ab" = .absent :=
  swizzle_pattern_validity.2.1 (Vec3.new [1, 2, 3]) vec3Names "ab"
    (by decide) (by decide)

/-- Counterexample to claim C4 as stated: writing pattern `"yx"` on a
`Vec3 (1,2,3)` from the source `Vec2 (10,20)` would, under
scatter-by-position, put the source's position-0 component `10` into `y`
and its position-1 component `20` into `x`, giving body `[20, 10, 3]`;
the code instead reads the source by name (`x = 10`, `y = 20`) and
produces `[10, 20, 3]`. -/
theorem swizzle_write_by_position_refuted :
    proxySet (Vec3.new [1, 2, 3]) vec3Names "yx" (.vecb (Vec2.new [10, 20]))
      = .done true ⟨vec3Names, [10, 20, 3]⟩
    ∧ (⟨vec3Names, [10, 20, 3]⟩ : VecBase) ≠ ⟨vec3Names, [20, 10, 3]⟩ := by
  decide

/-- Claim C4 as amended: a valid swizzle write from a `VecBase` source
scatters by character name — for each pattern character `c`, the source's
component named `c` is written into the target's component named `c`;
components whose names do not occur in the pattern are untouched, and the
write reports `true`. -/
theorem swizzle_write_scatters_by_name (target source : VecBase) (p : String)
    (hdecl : declaredMembers.contains p = false)
    (hlen : target.body.length = target.swizzles.length)
    (hmatch : swizzleMatch target.swizzles p.data = true)
    (hsrc : ∀ c ∈ p.data, (source.get_dimension c).isSome) :
    ∃ t, proxySet target target.swizzles p (.vecb source) = .done true t
      ∧ t.swizzles = target.swizzles
      ∧ (∀ c ∈ p.data, t.get_dimension c = source.get_dimension c)
      ∧ (∀ d, d ∉ p.data → t.get_dimension d = target.get_dimension d) := by
  refine ⟨applyWrites source target p.data, ?_, ?_, ?_, ?_⟩
  · simp only [proxySet, hdecl, Bool.false_eq_true, if_false, hmatch, if_true,
      scatterLoop_all_some source p.data target hsrc]
  · exact applyWrites_swizzles source p.data target
  · intro c hc
    exact applyWrites_get_mem source p.data target c hlen
      (fun e he => (swizzleMatch_iff.mp hmatch).2 e he) hc (hsrc c hc)
  · intro d hd
    exact applyWrites_get_not_mem source p.data target d hd

/-- Witness for C4 at the spec's concrete scenario: `v.xy = (10, 20)` on
`v = Vec3 (1,2,3)` updates `x` to `10` and `y` to `20` and leaves `z`
untouched. -/
theorem swizzle_write_scatters_by_name_witness :
    ∃ t, proxySet (Vec3.new [1, 2, 3]) (Vec3.new [1, 2, 3]).swizzles "xy"
          (.vecb (Vec2.new [10, 20])) = .done true t
      ∧ t.swizzles = (Vec3.new [1, 2, 3]).swizzles
      ∧ (∀ c ∈ "xy".data, t.get_dimension c = (Vec2.new [10, 20]).get_dimension c)
      ∧ (∀ d, d ∉ "xy".data →
          t.get_dimension d = (Vec3.new [1, 2, 3]).get_dimension d) :=
  swizzle_write_scatters_by_name (Vec3.new [1, 2, 3]) (Vec2.new [10, 20]) "xy"
    (by decide) (by decide) (by decide) (by decide)

/-- Counterexample to claim C5 as stated: reading the unknown name `q` on
`Vec3 (1,2,3)` does not fail with `UnknownComponent` — it silently yields
`undefined` (`findIndex` gives `-1` and `body[-1]` is `undefined`) — and
writing the unknown name `q` silently returns with every named component
unchanged. -/
theorem unknown_component_counterexample :
    (Vec3.new [1, 2, 3]).get_dimension 'q' = none
    ∧ (Vec3.new [1, 2, 3]).set_dimension 'q' 7 = Vec3.new [1, 2, 3] := by
  decide

/-- Claim C5 as amended: for every vector and every name outside its name
set, `get_dimension` silently returns `undefined` and `set_dimension`
silently leaves the component sequence unchanged; no failure of any kind
is signalled. -/
theorem unknown_component_silent (v : VecBase) (c : Char) (q : ℚ)
    (h : c ∉ v.swizzles) :
    v.get_dimension c = none ∧ v.set_dimension c q = v :=
  ⟨get_dimension_eq_none h, set_dimension_eq_self q h⟩

/-- Witness for C5 at the unknown name `a` on a `Vec3`. -/
theorem unknown_component_silent_witness :
    (Vec3.new [1, 2, 3]).get_dimension 'a' = none
    ∧ (Vec3.new [1, 2, 3]).set_dimension 'a' 9 = Vec3.new [1, 2, 3] :=
  unknown_component_silent (Vec3.new [1, 2, 3]) 'a' 9 (by decide)

/-- Claim C6: a valid length-1 swizzle read on a vector whose body covers
its names returns the single numeric component named by the character, and
a valid read of length at least 2 returns a new vector of the pattern's
length whose `i`-th component is the component of the underlying vector
named by the `i`-th pattern character (gather in pattern order); the
underlying vector is a pure input of `proxyGet` and is not modified. -/
theorem swizzle_read_gather :
    (∀ (v : VecBase) (p : String) (c : Char),
        declaredMembers.contains p = false →
        v.body.length = v.swizzles.length →
        swizzleMatch v.swizzles p.data = true →
        p.data = [c] →
        ∃ q, v.get_dimension c = some q ∧ proxyGet v v.swizzles p = .num q)
    ∧ (∀ (v : VecBase) (p : String),
        declaredMembers.contains p = false →
        v.body.length = v.swizzles.length →
        swizzleMatch v.swizzles p.data = true →
        2 ≤ p.data.length →
        ∃ t, proxyGet v v.swizzles p = .vec t
          ∧ t.swizzles = resultNames v.swizzles p.data.length
          ∧ t.body.length = p.data.length
          ∧ ∀ (i : Nat) (hi : i < p.data.length),
              t.body[i]? = v.get_dimension (p.data.get ⟨i, hi⟩)) := by
  constructor
  · intro v p c hdecl hlen hmatch hp
    have hc : c ∈ v.swizzles :=
      (swizzleMatch_iff.mp hmatch).2 c (hp ▸ List.mem_cons_self c [])
    obtain ⟨q, hq⟩ := get_dimension_isSome hc hlen
    refine ⟨q, hq, ?_⟩
    rw [hp] at hmatch
    simp only [proxyGet, hdecl, Bool.false_eq_true, if_false, hp, hmatch, if_true]
    simp [hq]
  · intro v p hdecl hlen hmatch h2
    have hall : ∀ c ∈ p.data, c ∈ v.swizzles := (swizzleMatch_iff.mp hmatch).2
    refine ⟨⟨resultNames v.swizzles p.data.length,
             (p.data.map fun c => v.get_dimension c).map fun o => o.getD 0⟩,
           ?_, rfl, ?_, ?_⟩
    · simp only [proxyGet, hdecl, Bool.false_eq_true, if_false, hmatch, if_true]
      have hne : (p.data.map fun c => v.get_dimension c).length ≠ 1 := by
        rw [List.length_map]; omega
      rw [if_neg hne, List.length_map]
    · simp
    · intro i hi
      have hmem : p.data.get ⟨i, hi⟩ ∈ p.data := List.get_mem _ _ _
      obtain ⟨q, hq⟩ := get_dimension_isSome (hall _ hmem) hlen
      rw [List.getElem?_map, List.getElem?_map, List.getElem?_eq_getElem hi]
      rw [List.get_eq_getElem] at hq
      simp only [Option.map_some', hq, Option.getD_some]
      rw [List.get_eq_getElem]
      exact hq.symm

/-- Witness for C6: on `v = Vec3 (1,2,3)`, the single-character read `"y"`
yields the number `2`, and the read `"zyx"` yields a three-component
vector gathering `z, y, x` in pattern order. -/
theorem swizzle_read_gather_witness :
    (∃ q, (Vec3.new [1, 2, 3]).get_dimension 'y' = some q
        ∧ proxyGet (Vec3.new [1, 2, 3]) (Vec3.new [1, 2, 3]).swizzles "y" = .num q)
    ∧ (∃ t, proxyGet (Vec3.new [1, 2, 3]) (Vec3.new [1, 2, 3]).swizzles "zyx" = .vec t
        ∧ t.swizzles = resultNames (Vec3.new [1, 2, 3]).swizzles "zyx".data.length
        ∧ t.body.length = "zyx".data.length
        ∧ ∀ (i : Nat) (hi : i < "zyx".data.length),
            t.body[i]? = (Vec3.new [1, 2, 3]).get_dimension ("zyx".data.get ⟨i, hi⟩)) :=
  ⟨swizzle_read_gather.1 (Vec3.new [1, 2, 3]) "y" 'y'
      (by decide) (by decide) (by decide) (by decide),
   swizzle_read_gather.2 (Vec3.new [1, 2, 3]) "zyx"
      (by decide) (by decide) (by decide) (by decide)⟩

/-- Claim C7 (code bug): the invariant `len(names) = len(components)` is
violated by values producible through the public API — `Vec3.new(5)` (the
single-number construction form) yields one component under three names,
and the swizzle read of the empty string yields a zero-component vector
that still carries the three names. -/
theorem api_reachable_invariant_violation :
    (Vec3.new [5]).body.length ≠ (Vec3.new [5]).swizzles.length
    ∧ proxyGet (Vec3.new [1, 2, 3]) vec3Names "" = .vec ⟨vec3Names, []⟩
    ∧ (VecBase.mk vec3Names []).body.length
        ≠ (VecBase.mk vec3Names []).swizzles.length := by
  decide

/-- Claim C8: `lerp` keeps the receiver's names and length and computes
each component as: `b`'s component when `t > 1`, `a`'s component when
`t < 0`, and otherwise `a + (a + b) / 2` — a formula independent of `t`
in the interior, exactly as the source writes it, not conventional linear
interpolation. -/
theorem lerp_formula (a b : VecBase) (t : ℚ)
    (hlen : a.body.length = b.body.length) :
    (a.lerp b t).swizzles = a.swizzles
    ∧ (a.lerp b t).body.length = a.body.length
    ∧ ∀ (i : Nat) (x y : ℚ), a.body[i]? = some x → b.body[i]? = some y →
        (a.lerp b t).body[i]? =
          some (if t > 1 then y else if t < 0 then x else x + (x + y) / 2) := by
  refine ⟨rfl, by simp [VecBase.lerp, VecBase.couple_element_wise], ?_⟩
  intro i x y hx hy
  have hi : i < a.body.length := (List.getElem?_eq_some.mp hx).1
  simp only [VecBase.lerp, VecBase.couple_element_wise]
  rw [List.getElem?_map, List.getElem?_range hi]
  simp only [Option.map_some', hx, hy, Option.getD_some]

/-- Witness for C8 on `a = (1,2,3)`, `b = (4,5,6)` with interior
`t = 1/2`: the first component is `1 + (1 + 4) / 2 = 7/2`. -/
theorem lerp_formula_witness :
    ((Vec3.new [1, 2, 3]).lerp (Vec3.new [4, 5, 6]) (1 / 2)).body[0]?
      = some (7 / 2) := by
  have h := (lerp_formula (Vec3.new [1, 2, 3]) (Vec3.new [4, 5, 6]) (1 / 2)
    rfl).2.2 0 1 4 rfl rfl
  rw [h]
  norm_num

/-- Counterexample to claim C9 as stated: writing pattern `"xzx"` on
`Vec3 (1,2,3)` from `Vec2 (10,20)` (which has `x` but lacks `z`) stops at
`z` and returns `false`; the claim requires the components of the failing
and subsequent characters to be unchanged, but the subsequent character
`x` names a component that the earlier iteration already changed from `1`
to `10`. -/
theorem swizzle_write_repeat_char_counterexample :
    proxySet (Vec3.new [1, 2, 3]) vec3Names "xzx" (.vecb (Vec2.new [10, 20]))
      = .done false ⟨vec3Names, [10, 2, 3]⟩
    ∧ (⟨vec3Names, [10, 2, 3]⟩ : VecBase).get_dimension 'x'
        ≠ (Vec3.new [1, 2, 3]).get_dimension 'x' := by
  decide

/-- Claim C9 as amended: a swizzle write is not atomic — when the source
reads numbers for the characters before some failing character and
`undefined` there, the write returns `false` with the components named by
the preceding characters already holding the source's values, while every
component whose name does not occur among the preceding characters
(the failing character's included) is unchanged. -/
theorem swizzle_write_failure_keeps_earlier_writes
    (target source : VecBase) (p : String) (front back : List Char) (c : Char)
    (hdecl : declaredMembers.contains p = false)
    (hlen : target.body.length = target.swizzles.length)
    (hmatch : swizzleMatch target.swizzles p.data = true)
    (hsplit : p.data = front ++ c :: back)
    (hfront : ∀ d ∈ front, (source.get_dimension d).isSome)
    (hfail : source.get_dimension c = none) :
    ∃ t, proxySet target target.swizzles p (.vecb source) = .done false t
      ∧ (∀ d ∈ front, t.get_dimension d = source.get_dimension d)
      ∧ (∀ d, d ∉ front → t.get_dimension d = target.get_dimension d) := by
  refine ⟨applyWrites source target front, ?_, ?_, ?_⟩
  · rw [hsplit] at hmatch
    simp only [proxySet, hdecl, Bool.false_eq_true, if_false, hsplit, hmatch,
      if_true, scatterLoop_stops source back hfail front target hfront]
  · intro d hd
    refine applyWrites_get_mem source front target d hlen ?_ hd (hfront d hd)
    intro e he
    exact (swizzleMatch_iff.mp hmatch).2 e (hsplit ▸ List.mem_append_left _ he)
  · intro d hd
    exact applyWrites_get_not_mem source front target d hd

/-- Witness for C9: writing `"xyz"` on `Vec3 (1,2,3)` from `Vec2 (10,20)`
(which lacks `z`) returns `false`, with `x` and `y` already updated to
`10` and `20` and `z` untouched. -/
theorem swizzle_write_failure_keeps_earlier_writes_witness :
    ∃ t, proxySet (Vec3.new [1, 2, 3]) (Vec3.new [1, 2, 3]).swizzles "xyz"
          (.vecb (Vec2.new [10, 20])) = .done false t
      ∧ (∀ d ∈ ['x', 'y'], t.get_dimension d = (Vec2.new [10, 20]).get_dimension d)
      ∧ (∀ d, d ∉ ['x', 'y'] →
          t.get_dimension d = (Vec3.new [1, 2, 3]).get_dimension d) :=
  swizzle_write_failure_keeps_earlier_writes (Vec3.new [1, 2, 3])
    (Vec2.new [10, 20]) "xyz" ['x', 'y'] [] 'z'
    (by decide) (by decide) (by decide) (by decide) (by decide) (by decide)

/-- Claim C10: a swizzle write through the view succeeds only when the
assigned value is an instance of the library's own `VecBase` class: for
every undeclared string key and every assigned value that is not a
`VecBase` instance — a plain object with matching numeric fields
included — the handler's `instanceof` test fails before anything is
written, so the write returns `false` and the target is unchanged. -/
theorem swizzle_write_requires_vecbase (target : VecBase) (sw : List Char)
    (p : String) (value : JsValue)
    (hdecl : declaredMembers.contains p = false)
    (hnv : ∀ w, value ≠ JsValue.vecb w) :
    proxySet target sw p value = .done false target := by
  cases value with
  | vecb w => exact absurd rfl (hnv w)
  | plain fields => simp only [proxySet, hdecl, Bool.false_eq_true, if_false]
  | other => simp only [proxySet, hdecl, Bool.false_eq_true, if_false]

/-- Witness for C10: assigning a plain object carrying numeric fields
`x = 10`, `y = 20` to the key `"xy"` of a proxied `Vec3 (1,2,3)` fails
and leaves the vector unchanged. -/
theorem swizzle_write_requires_vecbase_witness :
    proxySet (Vec3.new [1, 2, 3]) vec3Names "xy"
        (JsValue.plain [('x', 10), ('y', 20)])
      = .done false (Vec3.new [1, 2, 3]) :=
  swizzle_write_requires_vecbase (Vec3.new [1, 2, 3]) vec3Names "xy"
    (JsValue.plain [('x', 10), ('y', 20)]) (by decide)
    (fun w h => JsValue.noConfusion h)
